import Mathlib

/-!
Verification development for the RIT_pd3 trading engine (src/trader.py and
src/clients.py).  The Python source is shallowly embedded: prices and
estimates become exact rationals, integer quantities become integers,
fallible code returns Except/Option, and the stateful pieces are modelled
as explicit state transformers.  The theorems at the end check the
specification claims against these definitions.
-/

/-- Instruments traded on the simulated exchange (GEM, UB and the ETF basket). -/
inductive Ticker
  | GEM
  | UB
  | ETF
deriving DecidableEq, Repr, Fintype

/-- Order actions. -/
inductive OrderAction
  | BUY
  | SELL
deriving DecidableEq, Repr

/-- Order kinds (LIMIT quotes and MARKET hits). -/
inductive OrderKind
  | LIMIT
  | MARKET
deriving DecidableEq, Repr

/-- Book sides. -/
inductive Side
  | bid
  | ask
deriving DecidableEq, Repr, Fintype

/-- POSITION_LIMITS from trader.py: GEM 33000, UB 17500, ETF 33000 + 17500. -/
def POSITION_LIMITS : Ticker → ℤ
  | .GEM => 33000
  | .UB => 17500
  | .ETF => 33000 + 17500

/-- Python round to the nearest integer with ties to even (banker rounding),
on exact rationals. -/
def pyRound (q : ℚ) : ℤ :=
  if q - ⌊q⌋ < 1/2 then ⌊q⌋
  else if 1/2 < q - ⌊q⌋ then ⌊q⌋ + 1
  else if ⌊q⌋ % 2 = 0 then ⌊q⌋ else ⌊q⌋ + 1

/-- Python round(x, 2) on exact rationals. -/
def pyRound2 (q : ℚ) : ℚ :=
  ((pyRound (q * 100) : ℤ) : ℚ) / 100

theorem pyRound_ge (q : ℚ) : q - 1/2 ≤ ((pyRound q : ℤ) : ℚ) := by
  have h0 := Int.floor_le q
  have h1 := Int.lt_floor_add_one q
  unfold pyRound
  split_ifs with ha hb hc <;> push_cast <;> linarith

theorem pyRound_le (q : ℚ) : ((pyRound q : ℤ) : ℚ) ≤ q + 1/2 := by
  have h0 := Int.floor_le q
  have h1 := Int.lt_floor_add_one q
  unfold pyRound
  split_ifs with ha hb hc <;> push_cast <;> linarith

theorem pyRound2_ge (q : ℚ) : q - 1/200 ≤ pyRound2 q := by
  have h := pyRound_ge (q * 100)
  unfold pyRound2
  linarith

theorem pyRound2_le (q : ℚ) : pyRound2 q ≤ q + 1/200 := by
  have h := pyRound_le (q * 100)
  unfold pyRound2
  linarith

/-- A news item as returned by the news endpoint. -/
structure NewsItem where
  news_id : ℤ
  tick : ℤ
  headline : String
  body : String
deriving DecidableEq, Repr

/-- Substring containment, modelling the Python `in` operator on strings. -/
def strContains (hay needle : String) : Bool :=
  hay.data.tails.any needle.data.isPrefixOf

/-- Value of a list of decimal digit characters. -/
def digitsVal (cs : List Char) : ℕ :=
  cs.foldl (fun n c => 10 * n + (c.toNat - 48)) 0

/-- Python float() on a plain decimal token (optional sign, digits, optional
fractional part); none models the ValueError float() raises on other input. -/
def pyFloat (s : String) : Option ℚ :=
  let t := s.trim.data
  let signAndRest : ℚ × List Char :=
    match t with
    | '-' :: r => (-1, r)
    | '+' :: r => (1, r)
    | r => (1, r)
  match signAndRest.2.span Char.isDigit with
  | (intPart, []) =>
      if intPart.isEmpty then none
      else some (signAndRest.1 * (digitsVal intPart : ℚ))
  | (intPart, '.' :: fracPart) =>
      if fracPart.all Char.isDigit && !(intPart.isEmpty && fracPart.isEmpty) then
        some (signAndRest.1 *
          ((digitsVal intPart : ℚ) + (digitsVal fracPart : ℚ) / 10 ^ fracPart.length))
      else none
  | _ => none

/-- First token of Python str.split() with no arguments (split on whitespace
runs, empty pieces discarded). -/
def firstToken (s : String) : String :=
  ((s.split Char.isWhitespace).filter (fun t => t ≠ "")).headD ""

/-- News.parse_news_item: elapsed time (tick + 1), optional ticker read from the
headline, optional point estimate read from the body.  The error case models the
ValueError raised by float() on a non-numeric token after the last dollar sign. -/
def parse_news_item (n : NewsItem) : Except String (ℤ × Option Ticker × Option ℚ) :=
  let ticker : Option Ticker :=
    if strContains n.headline "GEM" then some .GEM
    else if strContains n.headline "UB" then some .UB
    else none
  let estimateStep : Except String (Option ℚ) :=
    if n.body.length > 0 then
      let tok := ((n.body.splitOn "$").getLastD "").trim
      if tok ≠ "" then
        match pyFloat (firstToken tok) with
        | some v => .ok (some v)
        | none => .error "ValueError"
      else .ok none
    else .ok none
  match estimateStep with
  | .error e => .error e
  | .ok est => .ok (n.tick + 1, ticker, est)

/-- News.calculate_estimate_interval.  A missing estimate models the TypeError
that `None - coefficient` raises in Python. -/
def calculate_estimate_interval (time : ℤ) (estimate : Option ℚ) :
    Except String (ℚ × ℚ) :=
  match estimate with
  | none => .error "TypeError"
  | some e =>
      let coefficient : ℚ := (300 - (time : ℚ)) / 50
      .ok (pyRound2 (e - coefficient), pyRound2 (e + coefficient))

/-- Body of News.process_news, recursing over the news list and carrying the
accumulated GEM and UB interval lists. -/
def processNewsAux : List NewsItem → List (ℚ × ℚ) → List (ℚ × ℚ) →
    Except String (List (ℚ × ℚ) × List (ℚ × ℚ))
  | [], geb, ub => .ok (geb, ub)
  | n :: rest, geb, ub =>
      if n.news_id = 1 ∨ n.news_id = 12 then processNewsAux rest geb ub
      else
        match parse_news_item n with
        | .error e => .error e
        | .ok trip =>
            match calculate_estimate_interval trip.1 trip.2.2 with
            | .error e => .error e
            | .ok iv =>
                match trip.2.1 with
                | some .GEM => processNewsAux rest (geb ++ [iv]) ub
                | some .UB => processNewsAux rest geb (ub ++ [iv])
                | _ => processNewsAux rest geb ub

/-- News.process_news. -/
def process_news (news : List NewsItem) :
    Except String (List (ℚ × ℚ) × List (ℚ × ℚ)) :=
  processNewsAux news [] []

/-- Python max over a nonempty list, given as head and tail. -/
def listMax (x : ℚ) (xs : List ℚ) : ℚ := xs.foldl max x

/-- Python min over a nonempty list, given as head and tail. -/
def listMin (x : ℚ) (xs : List ℚ) : ℚ := xs.foldl min x

/-- News.get_processed_interval. -/
def get_processed_interval (geb ub : List (ℚ × ℚ)) : (ℚ × ℚ) × (ℚ × ℚ) :=
  let gI : ℚ × ℚ :=
    match geb with
    | [] => (20, 30)
    | e :: es =>
        (max (listMax e.1 (es.map Prod.fst)) 20,
         min (listMin e.2 (es.map Prod.snd)) 30)
  let uI : ℚ × ℚ :=
    match ub with
    | [] => (40, 60)
    | e :: es =>
        (max (listMax e.1 (es.map Prod.fst)) 40,
         min (listMin e.2 (es.map Prod.snd)) 60)
  (gI, uI)

/-- Initial static priors from News.__init__. -/
def initialEstimates : Ticker → ℚ × ℚ
  | .GEM => (20, 30)
  | .UB => (40, 60)
  | .ETF => (60, 90)

/-- News.full_process_news as a state transformer: given whether new news
arrived, the fetched news list and the previous estimates, produce the new
estimates (ETF is the elementwise sum of the processed GEM and UB intervals). -/
def full_process_news (newNews : Bool) (news : List NewsItem)
    (prev : Ticker → ℚ × ℚ) : Except String (Ticker → ℚ × ℚ) :=
  if newNews then
    match process_news news with
    | .error e => .error e
    | .ok pr =>
        let p := get_processed_interval pr.1 pr.2
        .ok (fun t =>
          match t with
          | .GEM => p.1
          | .UB => p.2
          | .ETF => (p.1.1 + p.2.1, p.1.2 + p.2.2))
  else .ok prev

/-- Basket identity for an estimates map: the ETF interval is the elementwise
sum of the GEM and UB intervals. -/
def basketId (e : Ticker → ℚ × ℚ) : Prop :=
  (e .ETF).1 = (e .GEM).1 + (e .UB).1 ∧ (e .ETF).2 = (e .GEM).2 + (e .UB).2

/-- C3: every estimates map produced by News.full_process_news — the initial
priors and every successfully recomputed map — satisfies the basket identity
ETF.low = GEM.low + UB.low and ETF.high = GEM.high + UB.high, exactly. -/
theorem c3_basket_identity :
    basketId initialEstimates ∧
    ∀ (b : Bool) (news : List NewsItem) (prev est : Ticker → ℚ × ℚ),
      basketId prev → full_process_news b news prev = .ok est → basketId est := by
  constructor
  · exact ⟨by norm_num [initialEstimates], by norm_num [initialEstimates]⟩
  · intro b news prev est hprev h
    cases b with
    | false =>
        simp only [full_process_news, Bool.false_eq_true, if_false, Except.ok.injEq] at h
        rw [← h]
        exact hprev
    | true =>
        simp only [full_process_news, if_true] at h
        cases hp : process_news news with
        | error e => rw [hp] at h; cases h
        | ok pr =>
            rw [hp] at h
            simp only [Except.ok.injEq] at h
            rw [← h]
            exact ⟨rfl, rfl⟩

/-- Witness for C3 at a concrete input: the no-new-news transition preserves
the basket identity of the initial priors. -/
theorem c3_basket_identity_witness : basketId initialEstimates :=
  c3_basket_identity.2 false [] initialEstimates initialEstimates
    c3_basket_identity.1 rfl

/-- C6: calculate_estimate_interval returns exactly the pair of the rounded
band bounds, and once the elapsed time exceeds 300 the first bound (low)
strictly exceeds the second (high): no correction is applied in that regime. -/
theorem c6_estimate_interval (t : ℤ) (e : ℚ) :
    calculate_estimate_interval t (some e) =
      .ok (pyRound2 (e - (300 - (t : ℚ)) / 50), pyRound2 (e + (300 - (t : ℚ)) / 50)) ∧
    (300 < t →
      pyRound2 (e + (300 - (t : ℚ)) / 50) < pyRound2 (e - (300 - (t : ℚ)) / 50)) := by
  constructor
  · rfl
  · intro ht
    have ht2 : (300 : ℚ) + 1 ≤ (t : ℚ) := by exact_mod_cast ht
    have h1 := pyRound2_le (e + (300 - (t : ℚ)) / 50)
    have h2 := pyRound2_ge (e - (300 - (t : ℚ)) / 50)
    linarith

/-- Witness for C6 at t = 301, e = 0. -/
theorem c6_estimate_interval_witness :
    calculate_estimate_interval 301 (some 0) =
      .ok (pyRound2 (0 - (300 - ((301 : ℤ) : ℚ)) / 50),
           pyRound2 (0 + (300 - ((301 : ℤ) : ℚ)) / 50)) ∧
    pyRound2 ((0 : ℚ) + (300 - ((301 : ℤ) : ℚ)) / 50) <
      pyRound2 ((0 : ℚ) - (300 - ((301 : ℤ) : ℚ)) / 50) :=
  ⟨(c6_estimate_interval 301 0).1, (c6_estimate_interval 301 0).2 (by norm_num)⟩

/-- Concrete malformed news item: an informative id, a GEM headline and an
empty body (so no numeric point estimate can be extracted). -/
def badNewsItem : NewsItem :=
  { news_id := 2, tick := 5, headline := "Private Information about GEM", body := "" }

/-- C2 counterexample: on a news list containing an item whose body yields no
numeric estimate, News.process_news raises (here the TypeError from
`None - coefficient`) instead of skipping the item and returning intervals. -/
theorem c2_counterexample :
    process_news [badNewsItem] = .error "TypeError" := by
  rfl

/-- Predicate: parse_news_item fails to yield a numeric point estimate on this
item (float() raises, or the extracted estimate is None). -/
def estimateFails (n : NewsItem) : Prop :=
  (∃ e, parse_news_item n = .error e) ∨
  (∃ t tk, parse_news_item n = .ok (t, tk, none))

theorem processNewsAux_error (news : List NewsItem) :
    ∀ (geb ub : List (ℚ × ℚ)) (n : NewsItem), n ∈ news →
      ¬(n.news_id = 1 ∨ n.news_id = 12) → estimateFails n →
      ∃ e, processNewsAux news geb ub = .error e := by
  induction news with
  | nil => intro _ _ n h; cases h
  | cons m rest ih =>
      intro geb ub n hmem hid hfail
      rw [List.mem_cons] at hmem
      by_cases hm : m.news_id = 1 ∨ m.news_id = 12
      · have hne : n ∈ rest := by
          cases hmem with
          | inl h => rw [h] at hid; exact absurd hm hid
          | inr h => exact h
        simpa [processNewsAux, hm] using ih geb ub n hne hid hfail
      · cases hp : parse_news_item m with
        | error e => exact ⟨e, by simp [processNewsAux, hm, hp]⟩
        | ok trip =>
            obtain ⟨t, tk, est⟩ := trip
            cases est with
            | none =>
                exact ⟨"TypeError",
                  by simp [processNewsAux, hm, hp, calculate_estimate_interval]⟩
            | some v =>
                have hnrest : n ∈ rest := by
                  cases hmem with
                  | inl h =>
                      exfalso
                      rw [h] at hfail
                      cases hfail with
                      | inl hf =>
                          obtain ⟨e, he⟩ := hf
                          rw [hp] at he
                          cases he
                      | inr hf =>
                          obtain ⟨t2, tk2, h2⟩ := hf
                          rw [hp] at h2
                          simp at h2
                  | inr h => exact h
                cases tk with
                | none =>
                    simpa [processNewsAux, hm, hp, calculate_estimate_interval]
                      using ih geb ub n hnrest hid hfail
                | some tic =>
                    cases tic with
                    | GEM =>
                        simpa [processNewsAux, hm, hp, calculate_estimate_interval]
                          using ih
                            (geb ++ [(pyRound2 (v - (300 - (t : ℚ)) / 50),
                                      pyRound2 (v + (300 - (t : ℚ)) / 50))]) ub
                            n hnrest hid hfail
                    | UB =>
                        simpa [processNewsAux, hm, hp, calculate_estimate_interval]
                          using ih geb
                            (ub ++ [(pyRound2 (v - (300 - (t : ℚ)) / 50),
                                     pyRound2 (v + (300 - (t : ℚ)) / 50))])
                            n hnrest hid hfail
                    | ETF =>
                        simpa [processNewsAux, hm, hp, calculate_estimate_interval]
                          using ih geb ub n hnrest hid hfail

/-- C2 amended: a non-sentinel news item whose body text does not yield a
numeric point estimate makes News.process_news raise an error — the valuation
refresh aborts; the item is not skipped. -/
theorem c2_amended (news : List NewsItem) (n : NewsItem) (hmem : n ∈ news)
    (hid : ¬(n.news_id = 1 ∨ n.news_id = 12)) (hfail : estimateFails n) :
    ∃ e, process_news news = .error e :=
  processNewsAux_error news [] [] n hmem hid hfail

/-- Witness for the amended C2 at the concrete malformed item. -/
theorem c2_amended_witness : ∃ e, process_news [badNewsItem] = .error e :=
  c2_amended [badNewsItem] badNewsItem (List.mem_singleton.mpr rfl)
    (by decide) (Or.inr ⟨6, some .GEM, rfl⟩)

/-- A market order emitted by the hitter. -/
structure HitOrder where
  ticker : Ticker
  kind : OrderKind
  quantity : ℤ
  action : OrderAction
deriving DecidableEq, Repr

/-- Orders built for one ticker inside Hitter.hit_to_estimate_orders: one SELL
per full 5000 block of mispriced-bid size, then one BUY per full 5000 block of
mispriced-ask size (Python floor division, so partial blocks are dropped). -/
def hitOrdersFor (ts : Ticker → Side → ℤ) (t : Ticker) : List HitOrder :=
  (if ts t .bid > 0 then
    List.replicate ((Int.fdiv (ts t .bid) 5000).toNat) ⟨t, .MARKET, 5000, .SELL⟩
   else []) ++
  (if ts t .ask > 0 then
    List.replicate ((Int.fdiv (ts t .ask) 5000).toNat) ⟨t, .MARKET, 5000, .BUY⟩
   else [])

/-- Hitter.hit_to_estimate_orders: iterate the tickers in dictionary order,
returning None when no order was produced. -/
def hit_to_estimate_orders (ts : Ticker → Side → ℤ) : Option (List HitOrder) :=
  if hitOrdersFor ts .GEM ++ hitOrdersFor ts .UB ++ hitOrdersFor ts .ETF = [] then
    none
  else
    some (hitOrdersFor ts .GEM ++ hitOrdersFor ts .UB ++ hitOrdersFor ts .ETF)

/-- Gross position: Exchange_Client.get_gross_position, the sum of absolute
per-instrument positions. -/
def get_gross_position (p : Ticker → ℤ) : ℤ := |p .GEM| + |p .UB| + |p .ETF|

/-- Projected gross position computed inside Hitter.hit_to_estimates before an
order is admitted (the source's new_gross_positions expression). -/
def projGross (p : Ticker → ℤ) (o : HitOrder) : ℤ :=
  match o.action with
  | .BUY =>
      if p o.ticker ≥ 0 then get_gross_position p + o.quantity
      else get_gross_position p - |o.quantity|
  | .SELL =>
      if p o.ticker > 0 then get_gross_position p - o.quantity
      else get_gross_position p + |o.quantity|

/-- One iteration of the admission loop in Hitter.hit_to_estimates: check the
gross ceiling against the projected gross, then the per-instrument limit; an
admitted order executes fully, a rejected order is skipped. -/
def hitStep (p : Ticker → ℤ) (o : HitOrder) : Ticker → ℤ :=
  if projGross p o > 100000 then p
  else
    match o.action with
    | .BUY =>
        if p o.ticker + o.quantity > POSITION_LIMITS o.ticker then p
        else fun s => if s = o.ticker then p o.ticker + o.quantity else p s
    | .SELL =>
        if p o.ticker - o.quantity < -POSITION_LIMITS o.ticker then p
        else fun s => if s = o.ticker then p o.ticker - o.quantity else p s

/-- Hitter.hit_to_estimates: fold the admission gate over the emitted orders
(None means no orders were emitted), positions being re-read after each
admitted order's full execution. -/
def hit_to_estimates (orders : Option (List HitOrder)) (p : Ticker → ℤ) :
    Ticker → ℤ :=
  (orders.getD []).foldl hitStep p

theorem iteTicker_gg (x y : ℤ) : (if Ticker.GEM = Ticker.GEM then x else y) = x := rfl

theorem iteTicker_ug (x y : ℤ) : (if Ticker.UB = Ticker.GEM then x else y) = y := rfl

theorem iteTicker_eg (x y : ℤ) : (if Ticker.ETF = Ticker.GEM then x else y) = y := rfl

theorem iteTicker_gu (x y : ℤ) : (if Ticker.GEM = Ticker.UB then x else y) = y := rfl

theorem iteTicker_uu (x y : ℤ) : (if Ticker.UB = Ticker.UB then x else y) = x := rfl

theorem iteTicker_eu (x y : ℤ) : (if Ticker.ETF = Ticker.UB then x else y) = y := rfl

theorem iteTicker_ge (x y : ℤ) : (if Ticker.GEM = Ticker.ETF then x else y) = y := rfl

theorem iteTicker_ue (x y : ℤ) : (if Ticker.UB = Ticker.ETF then x else y) = y := rfl

theorem iteTicker_ee (x y : ℤ) : (if Ticker.ETF = Ticker.ETF then x else y) = x := rfl

theorem hitStep_invariant (p : Ticker → ℤ) (o : HitOrder) (hq : o.quantity = 5000)
    (hg : get_gross_position p ≤ 100000)
    (hl : ∀ t, |p t| ≤ POSITION_LIMITS t) :
    get_gross_position (hitStep p o) ≤ 100000 ∧
    ∀ t, |hitStep p o t| ≤ POSITION_LIMITS t := by
  have hG := hl .GEM
  have hU := hl .UB
  have hE := hl .ETF
  simp only [POSITION_LIMITS] at hG hU hE
  simp only [get_gross_position] at hg
  obtain ⟨tk, kd, q, act⟩ := o
  simp only at hq
  subst hq
  suffices h : get_gross_position (hitStep p ⟨tk, kd, 5000, act⟩) ≤ 100000 ∧
      |hitStep p ⟨tk, kd, 5000, act⟩ .GEM| ≤ 33000 ∧
      |hitStep p ⟨tk, kd, 5000, act⟩ .UB| ≤ 17500 ∧
      |hitStep p ⟨tk, kd, 5000, act⟩ .ETF| ≤ 33000 + 17500 by
    refine ⟨h.1, fun t => ?_⟩
    cases t
    · exact h.2.1
    · exact h.2.2.1
    · exact h.2.2.2
  cases act <;> cases tk <;>
    simp only [hitStep, projGross, get_gross_position, POSITION_LIMITS] <;>
    split_ifs <;>
    simp_all only [Int.abs_eq_natAbs, iteTicker_gg, iteTicker_ug, iteTicker_eg,
      iteTicker_gu, iteTicker_uu, iteTicker_eu, iteTicker_ge, iteTicker_ue,
      iteTicker_ee, if_true, if_false, and_true, true_and, and_self] <;>
    omega

theorem hitFold_invariant (l : List HitOrder) :
    ∀ p : Ticker → ℤ, (∀ o ∈ l, o.quantity = 5000) →
      get_gross_position p ≤ 100000 → (∀ t, |p t| ≤ POSITION_LIMITS t) →
      get_gross_position (l.foldl hitStep p) ≤ 100000 ∧
      ∀ t, |l.foldl hitStep p t| ≤ POSITION_LIMITS t := by
  induction l with
  | nil => intro p _ hg hl; exact ⟨hg, hl⟩
  | cons o rest ih =>
      intro p hq hg hl
      have h := hitStep_invariant p o (hq o (List.mem_cons_self o rest)) hg hl
      simpa using ih (hitStep p o) (fun o2 h2 => hq o2 (List.mem_cons_of_mem o h2)) h.1 h.2

theorem hitOrdersFor_quantity (ts : Ticker → Side → ℤ) (t : Ticker) (o : HitOrder)
    (h : o ∈ hitOrdersFor ts t) : o.quantity = 5000 ∧ o.kind = .MARKET := by
  unfold hitOrdersFor at h
  rcases List.mem_append.mp h with h1 | h1 <;> split_ifs at h1 <;>
    first
      | (have he := List.eq_of_mem_replicate h1
         rw [he]
         exact ⟨rfl, rfl⟩)
      | cases h1

theorem hit_to_estimate_orders_mem (ts : Ticker → Side → ℤ) (o : HitOrder)
    (h : o ∈ (hit_to_estimate_orders ts).getD []) :
    o.quantity = 5000 ∧ o.kind = .MARKET := by
  unfold hit_to_estimate_orders at h
  split_ifs at h with he
  · simp at h
  · simp only [Option.getD_some] at h
    rcases List.mem_append.mp h with h1 | h1
    · rcases List.mem_append.mp h1 with h2 | h2
      · exact hitOrdersFor_quantity ts .GEM o h2
      · exact hitOrdersFor_quantity ts .UB o h2
    · exact hitOrdersFor_quantity ts .ETF o h1

/-- C1: starting from any positions with gross at most 100000 and every
per-instrument position within its POSITION_LIMITS bound, the sequential
admission gate of Hitter.hit_to_estimates keeps both invariants after any
prefix of the market-order list emitted by hit_to_estimate_orders: no
admitted sequence can breach the gross ceiling or a per-instrument limit. -/
theorem c1_risk_gate (ts : Ticker → Side → ℤ) (p : Ticker → ℤ)
    (hg : get_gross_position p ≤ 100000)
    (hl : ∀ t, |p t| ≤ POSITION_LIMITS t)
    (pre post : List HitOrder)
    (hsplit : (hit_to_estimate_orders ts).getD [] = pre ++ post) :
    get_gross_position (hit_to_estimates (some pre) p) ≤ 100000 ∧
    ∀ t, |hit_to_estimates (some pre) p t| ≤ POSITION_LIMITS t := by
  have hq : ∀ o ∈ pre, o.quantity = 5000 := by
    intro o ho
    have hmem : o ∈ (hit_to_estimate_orders ts).getD [] := by
      rw [hsplit]
      exact List.mem_append_left post ho
    exact (hit_to_estimate_orders_mem ts o hmem).1
  simpa [hit_to_estimates] using hitFold_invariant pre p hq hg hl

/-- Concrete total-size map used in the C1 witness. -/
def tsWitness : Ticker → Side → ℤ := fun t s =>
  match t, s with
  | .GEM, .bid => 12000
  | _, _ => 0

/-- Concrete order list emitted for tsWitness. -/
def ordersWitness : List HitOrder :=
  List.replicate 2 ⟨.GEM, .MARKET, 5000, .SELL⟩

/-- Witness for C1 at a concrete total-size map and the flat starting
position. -/
theorem c1_risk_gate_witness :
    get_gross_position (hit_to_estimates (some ordersWitness) (fun _ => 0)) ≤ 100000 ∧
    ∀ t, |hit_to_estimates (some ordersWitness) (fun _ => 0) t| ≤ POSITION_LIMITS t :=
  c1_risk_gate tsWitness (fun _ => 0) (by decide) (by decide)
    ordersWitness [] (by decide)

theorem hit_to_estimate_orders_getD (ts : Ticker → Side → ℤ) :
    (hit_to_estimate_orders ts).getD [] =
      hitOrdersFor ts .GEM ++ hitOrdersFor ts .UB ++ hitOrdersFor ts .ETF := by
  unfold hit_to_estimate_orders
  split_ifs with h
  · rw [h]
    rfl
  · rfl

theorem countP_replicate {α : Type _} (p : α → Bool) (n : ℕ) (a : α) :
    (List.replicate n a).countP p = if p a then n else 0 := by
  induction n with
  | zero => simp
  | succ k ih =>
      rw [List.replicate_succ, List.countP_cons, ih]
      cases h : p a <;> simp [h]

theorem hitOrdersFor_eq (ts : Ticker → Side → ℤ) (u : Ticker)
    (hb : 0 ≤ ts u .bid) (ha : 0 ≤ ts u .ask) :
    hitOrdersFor ts u =
      List.replicate ((ts u .bid).toNat / 5000) ⟨u, .MARKET, 5000, .SELL⟩ ++
      List.replicate ((ts u .ask).toNat / 5000) ⟨u, .MARKET, 5000, .BUY⟩ := by
  have hdivb : ((ts u .bid).fdiv 5000).toNat = (ts u .bid).toNat / 5000 := by
    rw [Int.fdiv_eq_ediv _ (by norm_num)]
    omega
  have hdiva : ((ts u .ask).fdiv 5000).toNat = (ts u .ask).toNat / 5000 := by
    rw [Int.fdiv_eq_ediv _ (by norm_num)]
    omega
  unfold hitOrdersFor
  split_ifs with h1 h2 h2
  · rw [hdivb, hdiva]
  · rw [hdivb]
    have h0 : (ts u .ask).toNat / 5000 = 0 := by omega
    rw [h0]
    simp
  · rw [hdiva]
    have h0 : (ts u .bid).toNat / 5000 = 0 := by omega
    rw [h0]
    simp
  · have h0 : (ts u .bid).toNat / 5000 = 0 := by omega
    have h0a : (ts u .ask).toNat / 5000 = 0 := by omega
    rw [h0, h0a]
    simp

/-- C8: for every nonnegative total-size map, Hitter.hit_to_estimate_orders
emits, per instrument, exactly floor(bid size / 5000) SELL market orders and
floor(ask size / 5000) BUY market orders, each of quantity 5000; remainders
below one block yield no order, and the result is None exactly when every
side holds less than one full block. -/
theorem c8_block_orders (ts : Ticker → Side → ℤ) (hnn : ∀ u s, 0 ≤ ts u s)
    (t : Ticker) :
    ((hit_to_estimate_orders ts).getD []).countP
        (fun o => decide (o.ticker = t) && decide (o.action = .SELL)) =
      (ts t .bid).toNat / 5000 ∧
    ((hit_to_estimate_orders ts).getD []).countP
        (fun o => decide (o.ticker = t) && decide (o.action = .BUY)) =
      (ts t .ask).toNat / 5000 ∧
    (∀ o ∈ (hit_to_estimate_orders ts).getD [],
        o.quantity = 5000 ∧ o.kind = .MARKET) ∧
    (hit_to_estimate_orders ts = none ↔
      ∀ u : Ticker, ts u .bid < 5000 ∧ ts u .ask < 5000) := by
  have hG := hitOrdersFor_eq ts .GEM (hnn _ _) (hnn _ _)
  have hU := hitOrdersFor_eq ts .UB (hnn _ _) (hnn _ _)
  have hE := hitOrdersFor_eq ts .ETF (hnn _ _) (hnn _ _)
  refine ⟨?_, ?_, ?_, ?_⟩
  · rw [hit_to_estimate_orders_getD, hG, hU, hE]
    cases t <;> simp [List.countP_append, countP_replicate]
  · rw [hit_to_estimate_orders_getD, hG, hU, hE]
    cases t <;> simp [List.countP_append, countP_replicate]
  · intro o ho
    exact hit_to_estimate_orders_mem ts o ho
  · constructor
    · intro h
      unfold hit_to_estimate_orders at h
      split_ifs at h with hemp
      · rw [hG, hU, hE] at hemp
        have hlen := congrArg List.length hemp
        simp only [List.length_append, List.length_replicate, List.length_nil] at hlen
        intro u
        have h1 := hnn u .bid
        have h2 := hnn u .ask
        cases u <;> constructor <;> omega
    · intro hall
      have hempty : hitOrdersFor ts .GEM ++ hitOrdersFor ts .UB ++
          hitOrdersFor ts .ETF = [] := by
        rw [hG, hU, hE]
        have g1 := (hall .GEM).1
        have g2 := (hall .GEM).2
        have u1 := (hall .UB).1
        have u2 := (hall .UB).2
        have e1 := (hall .ETF).1
        have e2 := (hall .ETF).2
        have hg1 : (ts .GEM .bid).toNat / 5000 = 0 := by
          have := hnn .GEM .bid
          omega
        have hg2 : (ts .GEM .ask).toNat / 5000 = 0 := by
          have := hnn .GEM .ask
          omega
        have hu1 : (ts .UB .bid).toNat / 5000 = 0 := by
          have := hnn .UB .bid
          omega
        have hu2 : (ts .UB .ask).toNat / 5000 = 0 := by
          have := hnn .UB .ask
          omega
        have he1 : (ts .ETF .bid).toNat / 5000 = 0 := by
          have := hnn .ETF .bid
          omega
        have he2 : (ts .ETF .ask).toNat / 5000 = 0 := by
          have := hnn .ETF .ask
          omega
        rw [hg1, hg2, hu1, hu2, he1, he2]
        rfl
      unfold hit_to_estimate_orders
      rw [if_pos hempty]

/-- Concrete total-size map used in the C8 witness: 12000 of mispriced GEM
bids and 7000 of mispriced ETF asks. -/
def tsWitness8 : Ticker → Side → ℤ := fun t s =>
  match t, s with
  | .GEM, .bid => 12000
  | .ETF, .ask => 7000
  | _, _ => 0

/-- Witness for C8 at the concrete total-size map, instrument GEM. -/
theorem c8_block_orders_witness :
    ((hit_to_estimate_orders tsWitness8).getD []).countP
        (fun o => decide (o.ticker = Ticker.GEM) && decide (o.action = .SELL)) =
      (tsWitness8 .GEM .bid).toNat / 5000 ∧
    ((hit_to_estimate_orders tsWitness8).getD []).countP
        (fun o => decide (o.ticker = Ticker.GEM) && decide (o.action = .BUY)) =
      (tsWitness8 .GEM .ask).toNat / 5000 ∧
    (∀ o ∈ (hit_to_estimate_orders tsWitness8).getD [],
        o.quantity = 5000 ∧ o.kind = .MARKET) ∧
    (hit_to_estimate_orders tsWitness8 = none ↔
      ∀ u : Ticker, tsWitness8 u .bid < 5000 ∧ tsWitness8 u .ask < 5000) :=
  c8_block_orders tsWitness8 (by decide) .GEM

/-- A raw resting order as it appears in the exchange order book. -/
structure RawOrder where
  trader_id : String
  price : ℚ
  quantity : ℤ
  quantity_filled : ℤ
deriving DecidableEq, Repr

/-- Net unfilled quantity of a raw order (quantity - quantity_filled). -/
def netQty (o : RawOrder) : ℤ := o.quantity - o.quantity_filled

/-- A raw order book: the (bids, asks) raw order lists per ticker. -/
def RawBook := Ticker → List RawOrder × List RawOrder

/-- The list comprehension filter used by get_contra_orderbooks. -/
def contraFilter (tid : String) (l : List RawOrder) : List RawOrder :=
  l.filter (fun o => decide (o.trader_id ≠ tid))

/-- Exchange_Client.get_contra_orderbooks: drop orders carrying the own trader
id; with a falsy (empty) trader id Python skips the filter entirely. -/
def get_contra_orderbooks (book : RawBook) (trader_id : String) : RawBook :=
  fun t =>
    if trader_id = "" then book t
    else (contraFilter trader_id (book t).1, contraFilter trader_id (book t).2)

/-- Insert-or-add on an association list, modelling the Python
`dict[price] += quantity` consolidation with insertion order preserved. -/
def dictAdd (d : List (ℚ × ℤ)) (p : ℚ) (q : ℤ) : List (ℚ × ℤ) :=
  match d with
  | [] => [(p, q)]
  | e :: rest => if e.1 = p then (e.1, e.2 + q) :: rest else e :: dictAdd rest p q

/-- The consolidation dict of one book side. -/
def buildDict (orders : List RawOrder) : List (ℚ × ℤ) :=
  orders.foldl (fun d o => dictAdd d o.price (netQty o)) []

/-- Ascending price order on consolidated levels (Python sorted on pairs with
distinct first components). -/
def ascLevel (a b : ℚ × ℤ) : Prop := a.1 ≤ b.1

/-- Descending price order on consolidated levels (Python sorted with
reverse=True on pairs with distinct first components). -/
def descLevel (a b : ℚ × ℤ) : Prop := b.1 ≤ a.1

instance : DecidableRel ascLevel :=
  fun a b => inferInstanceAs (Decidable (a.1 ≤ b.1))

instance : DecidableRel descLevel :=
  fun a b => inferInstanceAs (Decidable (b.1 ≤ a.1))

instance : IsTotal (ℚ × ℤ) ascLevel :=
  ⟨fun a b => le_total a.1 b.1⟩

instance : IsTrans (ℚ × ℤ) ascLevel :=
  ⟨fun _ _ _ h1 h2 => le_trans h1 h2⟩

instance : IsTotal (ℚ × ℤ) descLevel :=
  ⟨fun a b => le_total b.1 a.1⟩

instance : IsTrans (ℚ × ℤ) descLevel :=
  ⟨fun _ _ _ h1 h2 => le_trans h2 h1⟩

/-- Exchange_Client.get_consolidated_orderbook: group each side by price,
summing quantity - quantity_filled, and emit bids sorted by price descending
and asks sorted by price ascending. -/
def get_consolidated_orderbook (book : RawBook) :
    Ticker → List (ℚ × ℤ) × List (ℚ × ℤ) :=
  fun t =>
    (List.insertionSort descLevel (buildDict (book t).1),
     List.insertionSort ascLevel (buildDict (book t).2))

/-- Total size resting at one price inside a dict. -/
def dval (d : List (ℚ × ℤ)) (x : ℚ) : ℤ :=
  ((d.filter (fun e => decide (e.1 = x))).map Prod.snd).sum

/-- Sum of net quantities over the orders of a list resting at one price. -/
def sumNet (orders : List RawOrder) (x : ℚ) : ℤ :=
  ((orders.filter (fun o => decide (o.price = x))).map netQty).sum

theorem dval_nil (x : ℚ) : dval [] x = 0 := rfl

theorem dval_cons (e : ℚ × ℤ) (d : List (ℚ × ℤ)) (x : ℚ) :
    dval (e :: d) x = (if e.1 = x then e.2 else 0) + dval d x := by
  simp only [dval, List.filter_cons]
  by_cases h : e.1 = x <;> simp [h]

theorem dval_dictAdd (d : List (ℚ × ℤ)) (p : ℚ) (q : ℤ) (x : ℚ) :
    dval (dictAdd d p q) x = dval d x + if x = p then q else 0 := by
  induction d with
  | nil =>
      rw [show dictAdd [] p q = [(p, q)] from rfl, dval_cons, dval_nil]
      by_cases h : x = p
      · simp [h]
      · simp [h, Ne.symm h]
  | cons e rest ih =>
      rw [show dictAdd (e :: rest) p q =
        if e.1 = p then (e.1, e.2 + q) :: rest else e :: dictAdd rest p q from rfl]
      by_cases h : e.1 = p
      · rw [if_pos h, dval_cons, dval_cons]
        by_cases hx : e.1 = x
        · rw [if_pos hx, if_pos hx, if_pos (by rw [← hx, h] : x = p)]
          push_cast
          ring
        · rw [if_neg hx, if_neg hx, if_neg (fun hh => hx (by rw [h, ← hh]))]
          ring
      · rw [if_neg h, dval_cons, dval_cons, ih]
        ring

theorem dkeys_dictAdd (d : List (ℚ × ℤ)) (p : ℚ) (q : ℤ) :
    (dictAdd d p q).map Prod.fst =
      if p ∈ d.map Prod.fst then d.map Prod.fst else d.map Prod.fst ++ [p] := by
  induction d with
  | nil => simp [dictAdd]
  | cons e rest ih =>
      rw [show dictAdd (e :: rest) p q =
        if e.1 = p then (e.1, e.2 + q) :: rest else e :: dictAdd rest p q from rfl]
      by_cases h : e.1 = p
      · rw [if_pos h]
        simp [h]
      · rw [if_neg h, List.map_cons, ih]
        by_cases hm : p ∈ rest.map Prod.fst
        · rw [if_pos hm, if_pos (by simp [hm])]
          rfl
        · rw [if_neg hm,
            if_neg (by simp [hm, Ne.symm h] : ¬ p ∈ (e :: rest).map Prod.fst)]
          rfl

theorem nodup_dictAdd (d : List (ℚ × ℤ)) (p : ℚ) (q : ℤ)
    (h : (d.map Prod.fst).Nodup) : ((dictAdd d p q).map Prod.fst).Nodup := by
  rw [dkeys_dictAdd]
  split_ifs with hm
  · exact h
  · simp [List.nodup_append, h, hm]

theorem dval_not_mem (d : List (ℚ × ℤ)) (x : ℚ) (h : x ∉ d.map Prod.fst) :
    dval d x = 0 := by
  induction d with
  | nil => rfl
  | cons e rest ih =>
      rw [dval_cons]
      simp only [List.map_cons, List.mem_cons] at h
      push_neg at h
      rw [if_neg (fun hh => h.1 hh.symm), ih h.2]
      ring

theorem mem_dict_val (d : List (ℚ × ℤ)) (hnd : (d.map Prod.fst).Nodup)
    (e : ℚ × ℤ) (h : e ∈ d) : e.2 = dval d e.1 := by
  induction d with
  | nil => cases h
  | cons a rest ih =>
      rw [List.map_cons, List.nodup_cons] at hnd
      rw [dval_cons]
      rcases List.mem_cons.mp h with h1 | h1
      · rw [h1, if_pos rfl,
          dval_not_mem rest a.1 hnd.1]
        ring
      · have hne : a.1 ≠ e.1 := by
          intro hh
          exact hnd.1 (hh ▸ List.mem_map_of_mem Prod.fst h1)
        rw [if_neg hne, ih hnd.2 h1]
        ring

theorem dval_buildAux (orders : List RawOrder) :
    ∀ (d : List (ℚ × ℤ)) (x : ℚ),
      dval (orders.foldl (fun d o => dictAdd d o.price (netQty o)) d) x =
        dval d x + sumNet orders x := by
  induction orders with
  | nil =>
      intro d x
      simp [sumNet]
  | cons o rest ih =>
      intro d x
      rw [List.foldl_cons, ih, dval_dictAdd]
      simp only [sumNet, List.filter_cons]
      by_cases h : o.price = x
      · rw [if_pos (show x = o.price from h.symm),
          if_pos (show decide (o.price = x) = true by simp [h])]
        simp only [List.map_cons, List.sum_cons]
        ring
      · rw [if_neg (show ¬x = o.price from fun hh => h hh.symm),
          if_neg (show ¬decide (o.price = x) = true by simp [h])]
        ring

theorem nodup_buildAux (orders : List RawOrder) :
    ∀ d : List (ℚ × ℤ), (d.map Prod.fst).Nodup →
      (((orders.foldl (fun d o => dictAdd d o.price (netQty o)) d)).map Prod.fst).Nodup := by
  induction orders with
  | nil => intro d h; exact h
  | cons o rest ih =>
      intro d h
      exact ih _ (nodup_dictAdd _ _ _ h)

theorem mem_keys_buildAux (orders : List RawOrder) :
    ∀ (d : List (ℚ × ℤ)) (x : ℚ),
      (x ∈ (orders.foldl (fun d o => dictAdd d o.price (netQty o)) d).map Prod.fst) ↔
        x ∈ d.map Prod.fst ∨ x ∈ orders.map RawOrder.price := by
  induction orders with
  | nil =>
      intro d x
      simp
  | cons o rest ih =>
      intro d x
      rw [List.foldl_cons, ih, dkeys_dictAdd]
      by_cases hx : x = o.price
      · subst hx
        split_ifs with hm <;> simp [hm]
      · split_ifs with hm <;> simp [hx]

theorem buildDict_nodup (l : List RawOrder) : ((buildDict l).map Prod.fst).Nodup :=
  nodup_buildAux l [] (by simp)

theorem buildDict_mem_keys (l : List RawOrder) (x : ℚ) :
    x ∈ (buildDict l).map Prod.fst ↔ x ∈ l.map RawOrder.price := by
  have h := mem_keys_buildAux l [] x
  simpa [buildDict] using h

theorem buildDict_val (l : List RawOrder) (x : ℚ) :
    dval (buildDict l) x = sumNet l x := by
  have h := dval_buildAux l [] x
  simpa [buildDict, dval_nil] using h

theorem buildDict_entry (l : List RawOrder) (e : ℚ × ℤ) (h : e ∈ buildDict l) :
    e.2 = sumNet l e.1 := by
  rw [← buildDict_val]
  exact mem_dict_val _ (buildDict_nodup l) e h

theorem pairwise_strict_of_sorted_desc (l : List (ℚ × ℤ))
    (hs : List.Sorted descLevel l) (hn : (l.map Prod.fst).Nodup) :
    l.Pairwise (fun a b => b.1 < a.1) := by
  have hne : l.Pairwise (fun a b : ℚ × ℤ => a.1 ≠ b.1) := List.pairwise_map.mp hn
  exact (hs.and hne).imp (fun h => lt_of_le_of_ne h.1 (Ne.symm h.2))

theorem pairwise_strict_of_sorted_asc (l : List (ℚ × ℤ))
    (hs : List.Sorted ascLevel l) (hn : (l.map Prod.fst).Nodup) :
    l.Pairwise (fun a b => a.1 < b.1) := by
  have hne : l.Pairwise (fun a b : ℚ × ℤ => a.1 ≠ b.1) := List.pairwise_map.mp hn
  exact (hs.and hne).imp (fun h => lt_of_le_of_ne h.1 h.2)

theorem sortedSide_desc (l : List RawOrder) :
    (∀ e ∈ List.insertionSort descLevel (buildDict l),
        e.1 ∈ l.map RawOrder.price ∧ e.2 = sumNet l e.1) ∧
    (∀ o ∈ l, o.price ∈ (List.insertionSort descLevel (buildDict l)).map Prod.fst) ∧
    (List.insertionSort descLevel (buildDict l)).Pairwise (fun a b => b.1 < a.1) := by
  have hperm := List.perm_insertionSort descLevel (buildDict l)
  refine ⟨?_, ?_, ?_⟩
  · intro e he
    have hmem := hperm.mem_iff.mp he
    exact ⟨(buildDict_mem_keys l e.1).mp (List.mem_map_of_mem Prod.fst hmem),
      buildDict_entry l e hmem⟩
  · intro o ho
    have hk : o.price ∈ (buildDict l).map Prod.fst :=
      (buildDict_mem_keys l o.price).mpr (List.mem_map_of_mem RawOrder.price ho)
    exact ((hperm.map Prod.fst).mem_iff).mpr hk
  · exact pairwise_strict_of_sorted_desc _ (List.sorted_insertionSort descLevel _)
      (((hperm.map Prod.fst).nodup_iff).mpr (buildDict_nodup l))

theorem sortedSide_asc (l : List RawOrder) :
    (∀ e ∈ List.insertionSort ascLevel (buildDict l),
        e.1 ∈ l.map RawOrder.price ∧ e.2 = sumNet l e.1) ∧
    (∀ o ∈ l, o.price ∈ (List.insertionSort ascLevel (buildDict l)).map Prod.fst) ∧
    (List.insertionSort ascLevel (buildDict l)).Pairwise (fun a b => a.1 < b.1) := by
  have hperm := List.perm_insertionSort ascLevel (buildDict l)
  refine ⟨?_, ?_, ?_⟩
  · intro e he
    have hmem := hperm.mem_iff.mp he
    exact ⟨(buildDict_mem_keys l e.1).mp (List.mem_map_of_mem Prod.fst hmem),
      buildDict_entry l e hmem⟩
  · intro o ho
    have hk : o.price ∈ (buildDict l).map Prod.fst :=
      (buildDict_mem_keys l o.price).mpr (List.mem_map_of_mem RawOrder.price ho)
    exact ((hperm.map Prod.fst).mem_iff).mpr hk
  · exact pairwise_strict_of_sorted_asc _ (List.sorted_insertionSort ascLevel _)
      (((hperm.map Prod.fst).nodup_iff).mpr (buildDict_nodup l))

/-- Specification of one consolidated bid side: every level's size is the sum
of quantity - quantity_filled over the non-own orders at its price, every
non-own order's price appears as a level, and prices are strictly descending
(hence duplicate-free). -/
def sideSpecDesc (orders : List RawOrder) (tid : String) (out : List (ℚ × ℤ)) : Prop :=
  (∀ e ∈ out, e.1 ∈ (contraFilter tid orders).map RawOrder.price ∧
      e.2 = sumNet (contraFilter tid orders) e.1) ∧
  (∀ o ∈ contraFilter tid orders, o.price ∈ out.map Prod.fst) ∧
  out.Pairwise (fun a b => b.1 < a.1)

/-- Specification of one consolidated ask side: as for bids but with prices
strictly ascending. -/
def sideSpecAsc (orders : List RawOrder) (tid : String) (out : List (ℚ × ℤ)) : Prop :=
  (∀ e ∈ out, e.1 ∈ (contraFilter tid orders).map RawOrder.price ∧
      e.2 = sumNet (contraFilter tid orders) e.1) ∧
  (∀ o ∈ contraFilter tid orders, o.price ∈ out.map Prod.fst) ∧
  out.Pairwise (fun a b => a.1 < b.1)

/-- The C4 claim as a predicate: composing get_contra_orderbooks and
get_consolidated_orderbook yields, per ticker, a consolidation of exactly the
orders whose trader id differs from the own id. -/
def consolidationClaim (book : RawBook) (tid : String) : Prop :=
  ∀ t : Ticker,
    sideSpecDesc (book t).1 tid
      ((get_consolidated_orderbook (get_contra_orderbooks book tid)) t).1 ∧
    sideSpecAsc (book t).2 tid
      ((get_consolidated_orderbook (get_contra_orderbooks book tid)) t).2

/-- Raw book with a single GEM bid resting under the empty trader id. -/
def bookCE : RawBook := fun t =>
  match t with
  | .GEM => ([{ trader_id := "", price := 10, quantity := 5, quantity_filled := 0 }], [])
  | _ => ([], [])

/-- C4 counterexample: with the empty own trader id the Python filter is
skipped (the empty string is falsy), so the own order at price 10 still
produces a consolidated level, violating the own-order exclusion. -/
theorem c4_counterexample : ¬ consolidationClaim bookCE "" := by
  intro h
  have hmem : ((10 : ℚ), (5 : ℤ)) ∈
      ((get_consolidated_orderbook (get_contra_orderbooks bookCE "")) .GEM).1 := by
    rw [show ((get_consolidated_orderbook (get_contra_orderbooks bookCE "")) .GEM).1 =
      [((10 : ℚ), (5 : ℤ))] from rfl]
    exact List.mem_singleton.mpr rfl
  have h1 := (h .GEM).1.1 ((10 : ℚ), (5 : ℤ)) hmem
  rw [show contraFilter "" (bookCE .GEM).1 = [] from rfl] at h1
  simp at h1

/-- C4 amended: for every raw per-instrument book and every non-empty own
trader id, the composition excludes every own order, aggregates the remaining
same-side orders at equal price into one level summing quantity minus filled,
and emits bids strictly descending and asks strictly ascending in price with
no duplicate price per side. -/
theorem c4_amended (book : RawBook) (tid : String) (htid : tid ≠ "") :
    consolidationClaim book tid := by
  intro t
  have hbook : get_contra_orderbooks book tid t =
      (contraFilter tid (book t).1, contraFilter tid (book t).2) := by
    unfold get_contra_orderbooks
    rw [if_neg htid]
  have houtb : ((get_consolidated_orderbook (get_contra_orderbooks book tid)) t).1 =
      List.insertionSort descLevel (buildDict (contraFilter tid (book t).1)) := by
    unfold get_consolidated_orderbook
    rw [hbook]
  have houta : ((get_consolidated_orderbook (get_contra_orderbooks book tid)) t).2 =
      List.insertionSort ascLevel (buildDict (contraFilter tid (book t).2)) := by
    unfold get_consolidated_orderbook
    rw [hbook]
  constructor
  · rw [sideSpecDesc, houtb]
    exact sortedSide_desc (contraFilter tid (book t).1)
  · rw [sideSpecAsc, houta]
    exact sortedSide_asc (contraFilter tid (book t).2)

/-- Raw book used in the C4 witness: two contra GEM bids at the same price, an
own resting bid, a contra bid at another price and one contra ask. -/
def bookW4 : RawBook := fun t =>
  match t with
  | .GEM =>
      ([{ trader_id := "user15", price := 10, quantity := 5, quantity_filled := 0 },
        { trader_id := "user3", price := 10, quantity := 7, quantity_filled := 2 },
        { trader_id := "user4", price := 10, quantity := 6, quantity_filled := 1 },
        { trader_id := "user4", price := 9, quantity := 3, quantity_filled := 0 }],
       [{ trader_id := "user3", price := 11, quantity := 4, quantity_filled := 0 }])
  | _ => ([], [])

/-- Witness for the amended C4 at a concrete book and a non-empty trader id. -/
theorem c4_amended_witness : consolidationClaim bookW4 "user15" :=
  c4_amended bookW4 "user15" (by decide)

/-- One side of a quote, the [price, size] pairs of trader.py. -/
structure QuoteSide where
  price : ℚ
  size : ℤ
deriving DecidableEq, Repr

/-- A two-sided quote [[bid price, bid size], [ask price, ask size]]. -/
structure TwoSided where
  bid : QuoteSide
  ask : QuoteSide
deriving DecidableEq, Repr

/-- A consolidated (price, size) contra book per ticker, as produced by
get_consolidated_orderbook. -/
def ConsBook := Ticker → List (ℚ × ℤ) × List (ℚ × ℤ)

/-- Default best bid price used by Quoter.optimize_quotes when the bid side is
empty (the static prior lows 20 / 40 / 60). -/
def bidDefault : Ticker → ℚ
  | .GEM => 20
  | .UB => 40
  | .ETF => 60

/-- Default best ask price used by Quoter.optimize_quotes when the ask side is
empty (the static prior highs 30 / 60 / 90). -/
def askDefault : Ticker → ℚ
  | .GEM => 30
  | .UB => 60
  | .ETF => 90

/-- Best contra bid price of a consolidated book with the per-ticker default. -/
def bestBidPrice (book : ConsBook) (t : Ticker) : ℚ :=
  match (book t).1 with
  | [] => bidDefault t
  | e :: _ => e.1

/-- Best contra ask price of a consolidated book with the per-ticker default. -/
def bestAskPrice (book : ConsBook) (t : Ticker) : ℚ :=
  match (book t).2 with
  | [] => askDefault t
  | e :: _ => e.1

/-- Quoter.optimize_quotes: a bid better (higher) than the best contra bid is
replaced by round(best bid + 0.01, 2); an ask better (lower) than the best
contra ask is replaced by round(best ask - 0.01, 2); a quote no better than
the market is left unchanged.  Sizes are untouched. -/
def optimize_quotes (quotes : Ticker → TwoSided) (book : ConsBook) :
    Ticker → TwoSided :=
  fun t =>
    { bid :=
        if (quotes t).bid.price > bestBidPrice book t then
          { price := pyRound2 (bestBidPrice book t + 1/100),
            size := (quotes t).bid.size }
        else (quotes t).bid,
      ask :=
        if (quotes t).ask.price < bestAskPrice book t then
          { price := pyRound2 (bestAskPrice book t - 1/100),
            size := (quotes t).ask.size }
        else (quotes t).ask }

/-- The C5 claim as a predicate: on every instrument with a non-empty contra
side the optimized quote never beats the best contra price by more than one
cent, and a raw quote no better than the market is left unchanged. -/
def optimizeClaim (quotes : Ticker → TwoSided) (book : ConsBook) : Prop :=
  ∀ t : Ticker,
    ((book t).1 ≠ [] →
      (optimize_quotes quotes book t).bid.price ≤ bestBidPrice book t + 1/100) ∧
    ((book t).2 ≠ [] →
      bestAskPrice book t - 1/100 ≤ (optimize_quotes quotes book t).ask.price) ∧
    ((quotes t).bid.price ≤ bestBidPrice book t →
      (optimize_quotes quotes book t).bid = (quotes t).bid) ∧
    (bestAskPrice book t ≤ (quotes t).ask.price →
      (optimize_quotes quotes book t).ask = (quotes t).ask)

/-- Consolidated book whose best GEM bid sits at the off-grid price 0.006. -/
def bookCE5 : ConsBook := fun t =>
  match t with
  | .GEM => ([((3 : ℚ)/500, 100)], [])
  | _ => ([], [])

/-- Raw quotes that strictly improve on that best bid. -/
def quotesCE5 : Ticker → TwoSided := fun _ =>
  { bid := { price := 11, size := 100 }, ask := { price := 1000, size := 100 } }

theorem pyRound_eight_fifths : pyRound (8/5 : ℚ) = 2 := by
  have hf : ⌊(8/5 : ℚ)⌋ = 1 := by
    rw [Int.floor_eq_iff]
    norm_num
  unfold pyRound
  rw [hf]
  rw [if_neg (by norm_num : ¬((8 : ℚ)/5 - (1 : ℤ) < 1/2)),
    if_pos (by norm_num : (1 : ℚ)/2 < (8 : ℚ)/5 - (1 : ℤ))]
  norm_num

/-- C5 counterexample: at best bid 0.006 the replacement price is
round(0.016, 2) = 0.02, which exceeds best bid + 0.01 = 0.016 — the
non-aggression bound fails off the penny grid.  No rounding tie is involved:
0.016 rounds up to 0.02 under nearest rounding, exactly as the program
computes it. -/
theorem c5_counterexample : ¬ optimizeClaim quotesCE5 bookCE5 := by
  intro h
  have hbb : bestBidPrice bookCE5 .GEM = 3/500 := rfl
  have h1 := (h .GEM).1 (by
    rw [show (bookCE5 .GEM).1 = [((3 : ℚ)/500, 100)] from rfl]
    exact List.cons_ne_nil _ _)
  have hopt : (optimize_quotes quotesCE5 bookCE5 .GEM).bid.price =
      pyRound2 (bestBidPrice bookCE5 .GEM + 1/100) := by
    simp only [optimize_quotes]
    rw [if_pos (by rw [show (quotesCE5 .GEM).bid.price = 11 from rfl, hbb]; norm_num)]
  have hval : pyRound2 (bestBidPrice bookCE5 .GEM + 1/100) = 2/100 := by
    rw [hbb, show ((3 : ℚ)/500 + 1/100) = 8/500 by norm_num]
    unfold pyRound2
    rw [show ((8 : ℚ)/500) * 100 = 8/5 by norm_num, pyRound_eight_fifths]
    norm_num
  rw [hopt, hval, hbb] at h1
  norm_num at h1

theorem pyRound2_cent (k : ℤ) : pyRound2 ((k : ℚ) / 100) = (k : ℚ) / 100 := by
  unfold pyRound2 pyRound
  rw [show ((k : ℚ)/100) * 100 = (k : ℚ) by field_simp, Int.floor_intCast,
    if_pos (by norm_num : (k : ℚ) - (k : ℚ) < 1/2)]

/-- C5 amended: whenever the best contra price on a non-empty side is a whole
number of cents, the optimized bid is at most best bid + 0.01 and the
optimized ask at least best ask - 0.01 (with equality when replaced); a raw
quote no better than the market is left unchanged, without any grid
assumption. -/
theorem c5_non_aggression (quotes : Ticker → TwoSided) (book : ConsBook)
    (t : Ticker) :
    ((book t).1 ≠ [] → (∃ k : ℤ, bestBidPrice book t = (k : ℚ) / 100) →
      (optimize_quotes quotes book t).bid.price ≤ bestBidPrice book t + 1/100) ∧
    ((book t).2 ≠ [] → (∃ k : ℤ, bestAskPrice book t = (k : ℚ) / 100) →
      bestAskPrice book t - 1/100 ≤ (optimize_quotes quotes book t).ask.price) ∧
    ((quotes t).bid.price ≤ bestBidPrice book t →
      (optimize_quotes quotes book t).bid = (quotes t).bid) ∧
    (bestAskPrice book t ≤ (quotes t).ask.price →
      (optimize_quotes quotes book t).ask = (quotes t).ask) := by
  refine ⟨?_, ?_, ?_, ?_⟩
  · intro _ hk
    obtain ⟨k, hkk⟩ := hk
    simp only [optimize_quotes]
    split_ifs with hgt
    · have he : bestBidPrice book t + 1/100 = ((k + 1 : ℤ) : ℚ) / 100 := by
        rw [hkk]
        push_cast
        ring
      rw [he, pyRound2_cent]
    · show (quotes t).bid.price ≤ bestBidPrice book t + 1/100
      linarith [le_of_not_lt hgt]
  · intro _ hk
    obtain ⟨k, hkk⟩ := hk
    simp only [optimize_quotes]
    split_ifs with hlt
    · have he : bestAskPrice book t - 1/100 = ((k - 1 : ℤ) : ℚ) / 100 := by
        rw [hkk]
        push_cast
        ring
      rw [he, pyRound2_cent]
    · show bestAskPrice book t - 1/100 ≤ (quotes t).ask.price
      linarith [le_of_not_lt hlt]
  · intro hle
    simp only [optimize_quotes]
    rw [if_neg (not_lt.mpr hle)]
  · intro hle
    simp only [optimize_quotes]
    rw [if_neg (not_lt.mpr hle)]

/-- Consolidated book on the penny grid for the C5 witness. -/
def bookW5 : ConsBook := fun t =>
  match t with
  | .GEM => ([((1950 : ℚ)/100, 300)], [((2050 : ℚ)/100, 400)])
  | _ => ([], [])

/-- Raw quotes that improve on both GEM sides for the C5 witness. -/
def quotesW5 : Ticker → TwoSided := fun _ =>
  { bid := { price := 21, size := 100 }, ask := { price := 20, size := 100 } }

/-- Witness for the amended C5 at a concrete penny-grid book, with both
non-aggression hypotheses discharged. -/
theorem c5_non_aggression_witness :
    (optimize_quotes quotesW5 bookW5 .GEM).bid.price ≤
      bestBidPrice bookW5 .GEM + 1/100 ∧
    bestAskPrice bookW5 .GEM - 1/100 ≤
      (optimize_quotes quotesW5 bookW5 .GEM).ask.price :=
  ⟨(c5_non_aggression quotesW5 bookW5 .GEM).1 (by decide) ⟨1950, rfl⟩,
   (c5_non_aggression quotesW5 bookW5 .GEM).2.1 (by decide) ⟨2050, rfl⟩⟩

theorem floor_le_pyRound (q : ℚ) : ⌊q⌋ ≤ pyRound q := by
  unfold pyRound
  split_ifs <;> omega

theorem pyRound_le_floor_add_one (q : ℚ) : pyRound q ≤ ⌊q⌋ + 1 := by
  unfold pyRound
  split_ifs <;> omega

theorem pyRound_mono {x y : ℚ} (h : x ≤ y) : pyRound x ≤ pyRound y := by
  rcases lt_or_eq_of_le (Int.floor_le_floor h) with hf | hf
  · have h1 := pyRound_le_floor_add_one x
    have h2 := floor_le_pyRound y
    omega
  · by_cases hx : x - ⌊x⌋ < 1/2
    · have h2 := floor_le_pyRound y
      have hx2 : pyRound x = ⌊x⌋ := by
        unfold pyRound
        rw [if_pos hx]
      omega
    · by_cases hy : 1/2 < y - ⌊y⌋
      · have h1 := pyRound_le_floor_add_one x
        have hy2 : pyRound y = ⌊y⌋ + 1 := by
          unfold pyRound
          rw [if_neg (by linarith : ¬ y - ⌊y⌋ < 1/2), if_pos hy]
        omega
      · have hfq : ((⌊x⌋ : ℤ) : ℚ) = ((⌊y⌋ : ℤ) : ℚ) := by exact_mod_cast hf
        have hxy : x = y := by linarith [le_of_not_lt hx, le_of_not_lt hy]
        rw [hxy]

/-- Position skew from Quoter.adjust_quotes: normalize the position to [0, 1]
against the position limits, then translate to [-1, 1]. -/
def get_position_skew (t : Ticker) (position : ℤ) : ℚ :=
  (((position : ℚ) + (POSITION_LIMITS t : ℚ)) /
      (2 * (POSITION_LIMITS t : ℚ)) - 1/2) * 2

/-- Quoter.adjust_quotes: prices are kept; the bid size is scaled by
(1 - skew) and the ask size by (1 + skew), each rounded to the nearest
integer. -/
def adjust_quotes (quotes : Ticker → TwoSided) (positions : Ticker → ℤ) :
    Ticker → TwoSided :=
  fun t =>
    { bid := { price := (quotes t).bid.price,
               size := pyRound (((quotes t).bid.size : ℚ) *
                 (1 - get_position_skew t (positions t))) },
      ask := { price := (quotes t).ask.price,
               size := pyRound (((quotes t).ask.size : ℚ) *
                 (1 + get_position_skew t (positions t))) } }

theorem get_position_skew_mono (t : Ticker) {a b : ℤ} (h : a ≤ b) :
    get_position_skew t a ≤ get_position_skew t b := by
  have hL : (0 : ℚ) < (POSITION_LIMITS t : ℚ) := by
    cases t <;> norm_num [POSITION_LIMITS]
  have hq : (a : ℚ) ≤ (b : ℚ) := by exact_mod_cast h
  unfold get_position_skew
  have h2 : ((a : ℚ) + (POSITION_LIMITS t : ℚ)) / (2 * (POSITION_LIMITS t : ℚ)) ≤
      ((b : ℚ) + (POSITION_LIMITS t : ℚ)) / (2 * (POSITION_LIMITS t : ℚ)) := by
    apply div_le_div_of_nonneg_right ?_ (by linarith)
    · linarith
  linarith

/-- C7: with the quote prices and bid/ask sizes fixed (sizes nonnegative, as
order book sizes are), the adjusted bid size is non-increasing and the
adjusted ask size non-decreasing as the position rises from -limit to +limit. -/
theorem c7_skew_monotone (quotes : Ticker → TwoSided) (p1 p2 : Ticker → ℤ)
    (t : Ticker) (hbs : 0 ≤ (quotes t).bid.size) (has : 0 ≤ (quotes t).ask.size)
    (hlo : -POSITION_LIMITS t ≤ p1 t) (h12 : p1 t ≤ p2 t)
    (hhi : p2 t ≤ POSITION_LIMITS t) :
    (adjust_quotes quotes p2 t).bid.size ≤ (adjust_quotes quotes p1 t).bid.size ∧
    (adjust_quotes quotes p1 t).ask.size ≤ (adjust_quotes quotes p2 t).ask.size := by
  have hsk := get_position_skew_mono t h12
  have hb : (0 : ℚ) ≤ ((quotes t).bid.size : ℚ) := by exact_mod_cast hbs
  have ha : (0 : ℚ) ≤ ((quotes t).ask.size : ℚ) := by exact_mod_cast has
  constructor
  · show pyRound (((quotes t).bid.size : ℚ) * (1 - get_position_skew t (p2 t))) ≤
      pyRound (((quotes t).bid.size : ℚ) * (1 - get_position_skew t (p1 t)))
    apply pyRound_mono
    apply mul_le_mul_of_nonneg_left ?_ hb
    · linarith
  · show pyRound (((quotes t).ask.size : ℚ) * (1 + get_position_skew t (p1 t))) ≤
      pyRound (((quotes t).ask.size : ℚ) * (1 + get_position_skew t (p2 t)))
    apply pyRound_mono
    apply mul_le_mul_of_nonneg_left ?_ ha
    · linarith

/-- Quotes used in the C7 witness. -/
def quotesW7 : Ticker → TwoSided := fun _ =>
  { bid := { price := 24, size := 2000 }, ask := { price := 26, size := 2000 } }

/-- Witness for C7 on GEM between the flat position and a long position. -/
theorem c7_skew_monotone_witness :
    (adjust_quotes quotesW7 (fun _ => 33000) .GEM).bid.size ≤
      (adjust_quotes quotesW7 (fun _ => 0) .GEM).bid.size ∧
    (adjust_quotes quotesW7 (fun _ => 0) .GEM).ask.size ≤
      (adjust_quotes quotesW7 (fun _ => 33000) .GEM).ask.size :=
  c7_skew_monotone quotesW7 (fun _ => 0) (fun _ => 33000) .GEM
    (by decide) (by decide) (by norm_num [POSITION_LIMITS])
    (by norm_num) (by norm_num [POSITION_LIMITS])

/-- An own resting quote on one side, as produced by Exchange_Client.get_quotes
(price, unfilled size and the exchange-owned order id). -/
structure RestingQuote where
  price : ℚ
  size : ℤ
  order_id : ℤ
deriving DecidableEq, Repr

/-- A limit order intent produced by the quote diff stage. -/
structure SendOrder where
  ticker : Ticker
  kind : OrderKind
  price : ℚ
  quantity : ℤ
  action : OrderAction
deriving DecidableEq, Repr

/-- The trader's own resting quotes per ticker: (bids, asks) in feed order. -/
def CurrentQuotes := Ticker → List RestingQuote × List RestingQuote

/-- Per-side logic of Quoter.check_against_current_quotes: only the first
resting order is compared; send when none rests and the adjusted size is
positive; cancel it and resend when it rests at a different price and the
adjusted size is positive; otherwise do nothing. -/
def diffSide (cur : List RestingQuote) (adjPrice : ℚ) (adjSize : ℤ)
    (t : Ticker) (act : OrderAction) : Option SendOrder × Option ℤ :=
  match cur with
  | [] =>
      if adjSize > 0 then (some ⟨t, .LIMIT, adjPrice, adjSize, act⟩, none)
      else (none, none)
  | cb :: _ =>
      if adjSize > 0 ∧ adjPrice ≠ cb.price then
        (some ⟨t, .LIMIT, adjPrice, adjSize, act⟩, some cb.order_id)
      else (none, none)

/-- Intents of one ticker: bid side then ask side, in emission order. -/
def diffTicker (cur : List RestingQuote × List RestingQuote) (adj : TwoSided)
    (t : Ticker) : List SendOrder × List ℤ :=
  ((diffSide cur.1 adj.bid.price adj.bid.size t .BUY).1.toList ++
     (diffSide cur.2 adj.ask.price adj.ask.size t .SELL).1.toList,
   (diffSide cur.1 adj.bid.price adj.bid.size t .BUY).2.toList ++
     (diffSide cur.2 adj.ask.price adj.ask.size t .SELL).2.toList)

/-- Quoter.check_against_current_quotes, tickers iterated in dictionary order:
the first component is orders_to_send, the second the batched
orders_to_cancel issued before any new order. -/
def check_against_current_quotes (current : CurrentQuotes)
    (adjusted : Ticker → TwoSided) : List SendOrder × List ℤ :=
  ((diffTicker (current .GEM) (adjusted .GEM) .GEM).1 ++
     (diffTicker (current .UB) (adjusted .UB) .UB).1 ++
     (diffTicker (current .ETF) (adjusted .ETF) .ETF).1,
   (diffTicker (current .GEM) (adjusted .GEM) .GEM).2 ++
     (diffTicker (current .UB) (adjusted .UB) .UB).2 ++
     (diffTicker (current .ETF) (adjusted .ETF) .ETF).2)

/-- Effect of one side's intents on the exchange: the cancelled order is
removed and the newly sent order comes to rest, listed first on its side. -/
def applySide (cur : List RestingQuote) (res : Option SendOrder × Option ℤ)
    (newId : ℤ) : List RestingQuote :=
  match res.1 with
  | some o =>
      ⟨o.price, o.quantity, newId⟩ ::
        (match res.2 with
         | some c => cur.filter (fun q => decide (q.order_id ≠ c))
         | none => cur)
  | none =>
      match res.2 with
      | some c => cur.filter (fun q => decide (q.order_id ≠ c))
      | none => cur

/-- Effect of a full diff run on the resting book, each new order getting a
fresh exchange id. -/
def applyIntents (current : CurrentQuotes) (adjusted : Ticker → TwoSided)
    (fresh : Ticker → Side → ℤ) : CurrentQuotes :=
  fun t =>
    (applySide (current t).1
       (diffSide (current t).1 (adjusted t).bid.price (adjusted t).bid.size t .BUY)
       (fresh t .bid),
     applySide (current t).2
       (diffSide (current t).2 (adjusted t).ask.price (adjusted t).ask.size t .SELL)
       (fresh t .ask))

theorem diffSide_applySide (cur : List RestingQuote) (p : ℚ) (s : ℤ)
    (t : Ticker) (a : OrderAction) (nid : ℤ) :
    diffSide (applySide cur (diffSide cur p s t a) nid) p s t a = (none, none) := by
  cases cur with
  | nil =>
      by_cases hs : s > 0
      · simp [diffSide, applySide, hs]
      · simp [diffSide, applySide, hs]
  | cons cb rest =>
      by_cases hc : s > 0 ∧ p ≠ cb.price
      · simp [diffSide, applySide, hc]
      · simp [diffSide, applySide, hc]

/-- Adjusted quotes used in the C9 counterexample. -/
def adjCE9 : Ticker → TwoSided := fun _ =>
  { bid := { price := 10, size := 100 }, ask := { price := 20, size := 0 } }

/-- An empty resting book. -/
def curEmpty : CurrentQuotes := fun _ => ([], [])

/-- C9 counterexample: the diff is a pure function of its inputs, so a second
run on the same (unchanged) adjusted quotes and resting orders emits exactly
what the first run emitted — here one new bid per ticker, not zero intents. -/
theorem c9_counterexample :
    check_against_current_quotes curEmpty adjCE9 ≠ (([] : List SendOrder), ([] : List ℤ)) := by
  intro h
  have h1 := congrArg (fun r => r.1.length) h
  simp [check_against_current_quotes, diffTicker, diffSide, curEmpty, adjCE9] at h1

/-- C9 amended: after the first run's cancellations and new orders have been
applied to the resting book (each new order resting first on its side), a
second diff run with the same adjusted quotes emits zero new-order intents and
zero cancellations; in particular a side whose first resting order already
carries the adjusted price yields no intent at all. -/
theorem c9_diff_idempotent :
    (∀ (current : CurrentQuotes) (adjusted : Ticker → TwoSided)
        (fresh : Ticker → Side → ℤ),
      check_against_current_quotes (applyIntents current adjusted fresh) adjusted =
        ([], [])) ∧
    (∀ (cb : RestingQuote) (rest : List RestingQuote) (s : ℤ) (t : Ticker)
        (a : OrderAction),
      diffSide (cb :: rest) cb.price s t a = (none, none)) := by
  constructor
  · intro current adjusted fresh
    simp [check_against_current_quotes, diffTicker, applyIntents, diffSide_applySide]
  · intro cb rest s t a
    simp [diffSide]

theorem diffSide_nothing {cur : List RestingQuote} {p : ℚ} {s : ℤ}
    {t : Ticker} {a : OrderAction} (hs : s ≤ 0) :
    diffSide cur p s t a = (none, none) := by
  cases cur with
  | nil => simp [diffSide, show ¬s > 0 by omega]
  | cons cb rest => simp [diffSide, show ¬s > 0 by omega]

theorem diffSide_send_char {cur : List RestingQuote} {p : ℚ} {s : ℤ}
    {t : Ticker} {a : OrderAction} {o : SendOrder}
    (h : (diffSide cur p s t a).1 = some o) :
    0 < s ∧ o.ticker = t ∧ o.action = a := by
  cases cur with
  | nil =>
      simp only [diffSide] at h
      split_ifs at h with hs
      simp only [Option.some.injEq] at h
      exact ⟨hs, by rw [← h], by rw [← h]⟩
  | cons cb rest =>
      simp only [diffSide] at h
      split_ifs at h with hc
      simp only [Option.some.injEq] at h
      exact ⟨hc.1, by rw [← h], by rw [← h]⟩

theorem diffSide_cancel_char {cur : List RestingQuote} {p : ℚ} {s : ℤ}
    {t : Ticker} {a : OrderAction} {c : ℤ}
    (h : (diffSide cur p s t a).2 = some c) :
    0 < s ∧ ∃ cb rest, cur = cb :: rest ∧ c = cb.order_id := by
  cases cur with
  | nil =>
      simp only [diffSide] at h
      split_ifs at h
  | cons cb rest =>
      simp only [diffSide] at h
      split_ifs at h with hc
      simp only [Option.some.injEq] at h
      exact ⟨hc.1, cb, rest, rfl, h.symm⟩

theorem mem_check_sends {current : CurrentQuotes} {adjusted : Ticker → TwoSided}
    {o : SendOrder} (h : o ∈ (check_against_current_quotes current adjusted).1) :
    (diffSide (current .GEM).1 (adjusted .GEM).bid.price (adjusted .GEM).bid.size
        .GEM .BUY).1 = some o ∨
    (diffSide (current .GEM).2 (adjusted .GEM).ask.price (adjusted .GEM).ask.size
        .GEM .SELL).1 = some o ∨
    (diffSide (current .UB).1 (adjusted .UB).bid.price (adjusted .UB).bid.size
        .UB .BUY).1 = some o ∨
    (diffSide (current .UB).2 (adjusted .UB).ask.price (adjusted .UB).ask.size
        .UB .SELL).1 = some o ∨
    (diffSide (current .ETF).1 (adjusted .ETF).bid.price (adjusted .ETF).bid.size
        .ETF .BUY).1 = some o ∨
    (diffSide (current .ETF).2 (adjusted .ETF).ask.price (adjusted .ETF).ask.size
        .ETF .SELL).1 = some o := by
  simp only [check_against_current_quotes, diffTicker, List.mem_append,
    Option.mem_toList, Option.mem_def] at h
  tauto

theorem mem_check_cancels {current : CurrentQuotes} {adjusted : Ticker → TwoSided}
    {c : ℤ} (h : c ∈ (check_against_current_quotes current adjusted).2) :
    (diffSide (current .GEM).1 (adjusted .GEM).bid.price (adjusted .GEM).bid.size
        .GEM .BUY).2 = some c ∨
    (diffSide (current .GEM).2 (adjusted .GEM).ask.price (adjusted .GEM).ask.size
        .GEM .SELL).2 = some c ∨
    (diffSide (current .UB).1 (adjusted .UB).bid.price (adjusted .UB).bid.size
        .UB .BUY).2 = some c ∨
    (diffSide (current .UB).2 (adjusted .UB).ask.price (adjusted .UB).ask.size
        .UB .SELL).2 = some c ∨
    (diffSide (current .ETF).1 (adjusted .ETF).bid.price (adjusted .ETF).bid.size
        .ETF .BUY).2 = some c ∨
    (diffSide (current .ETF).2 (adjusted .ETF).ask.price (adjusted .ETF).ask.size
        .ETF .SELL).2 = some c := by
  simp only [check_against_current_quotes, diffTicker, List.mem_append,
    Option.mem_toList, Option.mem_def] at h
  tauto

/-- C10: a side whose adjusted size is zero or negative contributes no intent:
no new order with that ticker and action is sent and nothing is cancelled from
that side, so a stale resting order there is left untouched; moreover every
cancelled id is the id of the first resting order of some side, so additional
resting orders behind the first are never cancelled by the diff stage. -/
theorem c10_frame (current : CurrentQuotes) (adjusted : Ticker → TwoSided)
    (t : Ticker) :
    ((adjusted t).bid.size ≤ 0 →
      (∀ o ∈ (check_against_current_quotes current adjusted).1,
          ¬(o.ticker = t ∧ o.action = .BUY)) ∧
      (diffSide (current t).1 (adjusted t).bid.price (adjusted t).bid.size
          t .BUY).2 = none) ∧
    ((adjusted t).ask.size ≤ 0 →
      (∀ o ∈ (check_against_current_quotes current adjusted).1,
          ¬(o.ticker = t ∧ o.action = .SELL)) ∧
      (diffSide (current t).2 (adjusted t).ask.price (adjusted t).ask.size
          t .SELL).2 = none) ∧
    (∀ c ∈ (check_against_current_quotes current adjusted).2,
      ∃ u cb rest, c = cb.order_id ∧
        ((current u).1 = cb :: rest ∨ (current u).2 = cb :: rest)) := by
  refine ⟨?_, ?_, ?_⟩
  · intro hs
    refine ⟨?_, by rw [diffSide_nothing hs]⟩
    intro o ho hco
    rcases mem_check_sends ho with h1 | h1 | h1 | h1 | h1 | h1 <;>
      have hchar := diffSide_send_char h1
    · have ht : t = .GEM := hco.1.symm.trans hchar.2.1
      rw [ht] at hs
      omega
    · exact absurd (hchar.2.2.symm.trans hco.2) (by decide)
    · have ht : t = .UB := hco.1.symm.trans hchar.2.1
      rw [ht] at hs
      omega
    · exact absurd (hchar.2.2.symm.trans hco.2) (by decide)
    · have ht : t = .ETF := hco.1.symm.trans hchar.2.1
      rw [ht] at hs
      omega
    · exact absurd (hchar.2.2.symm.trans hco.2) (by decide)
  · intro hs
    refine ⟨?_, by rw [diffSide_nothing hs]⟩
    intro o ho hco
    rcases mem_check_sends ho with h1 | h1 | h1 | h1 | h1 | h1 <;>
      have hchar := diffSide_send_char h1
    · exact absurd (hchar.2.2.symm.trans hco.2) (by decide)
    · have ht : t = .GEM := hco.1.symm.trans hchar.2.1
      rw [ht] at hs
      omega
    · exact absurd (hchar.2.2.symm.trans hco.2) (by decide)
    · have ht : t = .UB := hco.1.symm.trans hchar.2.1
      rw [ht] at hs
      omega
    · exact absurd (hchar.2.2.symm.trans hco.2) (by decide)
    · have ht : t = .ETF := hco.1.symm.trans hchar.2.1
      rw [ht] at hs
      omega
  · intro c hc
    rcases mem_check_cancels hc with h1 | h1 | h1 | h1 | h1 | h1
    · obtain ⟨_, cb, rest, hcur, hcid⟩ := diffSide_cancel_char h1
      exact ⟨.GEM, cb, rest, hcid, Or.inl hcur⟩
    · obtain ⟨_, cb, rest, hcur, hcid⟩ := diffSide_cancel_char h1
      exact ⟨.GEM, cb, rest, hcid, Or.inr hcur⟩
    · obtain ⟨_, cb, rest, hcur, hcid⟩ := diffSide_cancel_char h1
      exact ⟨.UB, cb, rest, hcid, Or.inl hcur⟩
    · obtain ⟨_, cb, rest, hcur, hcid⟩ := diffSide_cancel_char h1
      exact ⟨.UB, cb, rest, hcid, Or.inr hcur⟩
    · obtain ⟨_, cb, rest, hcur, hcid⟩ := diffSide_cancel_char h1
      exact ⟨.ETF, cb, rest, hcid, Or.inl hcur⟩
    · obtain ⟨_, cb, rest, hcur, hcid⟩ := diffSide_cancel_char h1
      exact ⟨.ETF, cb, rest, hcid, Or.inr hcur⟩

/-- Resting quotes used in the C10 witness: two GEM bids (the second one
stale) and one GEM ask. -/
def curW10 : CurrentQuotes := fun t =>
  match t with
  | .GEM => ([⟨10, 5, 1⟩, ⟨9, 5, 2⟩], [⟨12, 5, 3⟩])
  | _ => ([], [])

/-- Adjusted quotes used in the C10 witness: zero bid size on every ticker
while the resting bid sits at a different price. -/
def adjW10 : Ticker → TwoSided := fun _ =>
  { bid := { price := 11, size := 0 }, ask := { price := 12, size := 7 } }

/-- Witness for C10: with a zero adjusted bid size the stale GEM bids are left
untouched and no GEM buy order is sent. -/
theorem c10_frame_witness :
    (∀ o ∈ (check_against_current_quotes curW10 adjW10).1,
        ¬(o.ticker = Ticker.GEM ∧ o.action = .BUY)) ∧
    (diffSide (curW10 .GEM).1 (adjW10 .GEM).bid.price (adjW10 .GEM).bid.size
        Ticker.GEM .BUY).2 = none :=
  (c10_frame curW10 adjW10 .GEM).1 (by decide)
